import Mathlib

/-!
Verification development for the update-synchronization and event-dispatch
engine in `telethon/client/updates.py` (class `UpdateMethods`).

The Python code is shallowly embedded: every method relevant to the claims is
translated into an executable Lean function over explicit state, and all side
effects (requests issued, envelopes handled, updates dispatched, storage
writes) are rendered as logs threaded through the functions.  Machine integers
are modelled as `Int` (Python integers are unbounded); Python truthiness of an
integer is `≠ 0`; optional attributes (`hasattr`) are `Option` fields.
-/

set_option autoImplicit false

namespace Telethon

/-- The synchronization cursor held in `self._state` / the session update
state: fields `pts`, `qts`, `date`, `seq`. -/
structure SyncState where
  pts : Int
  qts : Int
  date : Int
  seq : Int
deriving DecidableEq, Repr

/-- The update objects handled by `_handle_update`.  Containers
(`types.Updates`, `types.UpdatesCombined`, `types.UpdateShort`) embed further
update objects; leaves carry the optional cursor attributes that
`hasattr(update, ...)` inspects.  Peers (users/chats) are modelled by their
`utils.get_peer_id` value, a `Nat`. -/
inductive UpdateObj where
  | updates (users chats : List Nat) (date seq : Int) (upds : List UpdateObj)
  | updatesCombined (users chats : List Nat) (date seq seqStart : Int)
      (upds : List UpdateObj)
  | updateShort (upd : UpdateObj) (date : Int)
  | newMessage (msg : Nat) (pts ptsCount : Int)
  | item (pts date seq : Option Int)

/-- `hasattr(update, \x7bpts\x7d)` together with the attribute value.
`types.Updates`, `types.UpdatesCombined` and `types.UpdateShort` carry no
`pts`; `types.UpdateNewMessage` always does. -/
def ptsOf : UpdateObj → Option Int
  | .updates _ _ _ _ _ => none
  | .updatesCombined _ _ _ _ _ _ => none
  | .updateShort _ _ => none
  | .newMessage _ p _ => some p
  | .item p _ _ => p

/-- `hasattr(update, \x7bdate\x7d)` together with the attribute value. -/
def dateOf : UpdateObj → Option Int
  | .updates _ _ d _ _ => some d
  | .updatesCombined _ _ d _ _ _ => some d
  | .updateShort _ d => some d
  | .newMessage _ _ _ => none
  | .item _ d _ => d

/-- `hasattr(update, \x7bseq\x7d)` together with the attribute value. -/
def seqOf : UpdateObj → Option Int
  | .updates _ _ _ s _ => some s
  | .updatesCombined _ _ _ s _ _ => some s
  | .updateShort _ _ => none
  | .newMessage _ _ _ => none
  | .item _ _ s => s

/-- Lines 185-193 of `updates.py`: the cursor-advance tail of
`_handle_update`.  Returns the computed `need_diff` flag (the gap signal,
which the code computes and then drops) together with the updated state:

    need_diff = False
    if hasattr(update, pts):
        if self._state.pts and (update.pts - self._state.pts) > 1:
            need_diff = True
        self._state.pts = update.pts
    if hasattr(update, date): self._state.date = update.date
    if hasattr(update, seq): self._state.seq = update.seq

Python truthiness of `self._state.pts` is `pts ≠ 0`. -/
def cursorStep (st : SyncState) (u : UpdateObj) : Bool × SyncState :=
  let (needDiff, st1) :=
    match ptsOf u with
    | some p => (decide (st.pts ≠ 0) && decide (p - st.pts > 1),
                 { st with pts := p })
    | none => (false, st)
  let st2 :=
    match dateOf u with
    | some d => { st1 with date := d }
    | none => st1
  let st3 :=
    match seqOf u with
    | some s => { st2 with seq := s }
    | none => st2
  (needDiff, st3)

/-- The mutable client state visible to `_handle_update`: the cursor
`self._state` and the log of dispatch tasks created by
`self._loop.create_task(self._dispatch_update(update))` — each entry is the
dispatched update paired with the entity context attached to it (the value of
`update._entities` at dispatch time, defaulting to the empty context). -/
structure HState where
  state : SyncState
  dispatched : List (UpdateObj × List Nat)

mutual

/-- Lines 171-193 of `updates.py`, `_handle_update`.  The `ctx` argument is
the `_entities` attribute currently attached to `u` (`none` when the object
never had one, so that `getattr(update, _entities, \x7b\x7d)` yields `[]`).
`session.process_entities` is an external collaborator with no effect on the
modelled state.  Note the source uses `if` (not `elif`) for the container
case, so a `types.Updates` / `types.UpdatesCombined` container also reaches
the final `else` branch and is itself dispatched. -/
def handleUpdate (u : UpdateObj) (ctx : Option (List Nat)) (s : HState) :
    HState :=
  match u with
  | .updates users chats d sq upds =>
    -- entities = \x7bget_peer_id(x): x for x in chain(users, chats)\x7d
    let s1 := handleList upds (users ++ chats) s
    -- not an UpdateShort, so the else branch dispatches the container itself
    let s2 := { s1 with
      dispatched := s1.dispatched ++ [(UpdateObj.updates users chats d sq upds, ctx.getD [])] }
    { s2 with state := (cursorStep s2.state (.updates users chats d sq upds)).2 }
  | .updatesCombined users chats d sq ss upds =>
    let s1 := handleList upds (users ++ chats) s
    let s2 := { s1 with
      dispatched := s1.dispatched ++
        [(UpdateObj.updatesCombined users chats d sq ss upds, ctx.getD [])] }
    { s2 with state :=
        (cursorStep s2.state (.updatesCombined users chats d sq ss upds)).2 }
  | .updateShort inner d =>
    -- the inner update is fresh from the wire: it carries no _entities
    let s2 := handleUpdate inner none s
    { s2 with state := (cursorStep s2.state (.updateShort inner d)).2 }
  | .newMessage m p pc =>
    let s2 := { s with dispatched := s.dispatched ++ [(UpdateObj.newMessage m p pc, ctx.getD [])] }
    { s2 with state := (cursorStep s2.state (.newMessage m p pc)).2 }
  | .item p d sq =>
    let s2 := { s with dispatched := s.dispatched ++ [(UpdateObj.item p d sq, ctx.getD [])] }
    { s2 with state := (cursorStep s2.state (.item p d sq)).2 }

/-- The loop `for u in update.updates: u._entities = entities;
self._handle_update(u)` inside `_handle_update`. -/
def handleList (us : List UpdateObj) (ents : List Nat) (s : HState) : HState :=
  match us with
  | [] => s
  | u :: rest => handleList rest ents (handleUpdate u (some ents) s)

end

/-- The four response shapes of `updates.GetDifferenceRequest` that
`catch_up` distinguishes (`types.updates.DifferenceEmpty`, `Difference`,
`DifferenceSlice`, `DifferenceTooLong`).  New messages are modelled by a
message id; `other_updates` are arbitrary update objects. -/
inductive DiffResult where
  | empty (date seq : Int)
  | full (state : SyncState) (users chats : List Nat) (newMessages : List Nat)
      (otherUpdates : List UpdateObj)
  | slice (intermediateState : SyncState) (users chats : List Nat)
      (newMessages : List Nat) (otherUpdates : List UpdateObj)
  | tooLong (pts : Int)

/-- One scripted outcome of awaiting `self(GetDifferenceRequest(...))`: either
a typed response or an exception raised by the transport. -/
def DiffResponse : Type := Except Unit DiffResult

/-- Outcome of the `while True` loop body of `catch_up` (lines 131-162):
whether the loop exited normally (`break`) or an exception escaped, the final
local `state`, the `(pts, date, qts)` arguments of every difference request
issued, and every envelope passed to `self._handle_update`. -/
structure LoopResult where
  ok : Bool
  state : SyncState
  requests : List (Int × Int × Int)
  handled : List UpdateObj

/-- The `types.Updates(...)` envelope synthesized by `catch_up` from a
`Difference` / `DifferenceSlice` response once `state` has been reassigned:
`users=d.users, chats=d.chats, date=state.date, seq=state.seq,
updates=d.other_updates + [UpdateNewMessage(m, 0, 0) for m in d.new_messages]`. -/
def synthEnvelope (st : SyncState) (users chats : List Nat)
    (newMessages : List Nat) (otherUpdates : List UpdateObj) : UpdateObj :=
  .updates users chats st.date st.seq
    (otherUpdates ++ newMessages.map (fun m => .newMessage m 0 0))

/-- Lines 131-162 of `updates.py`: the reconciliation loop of `catch_up`,
driven by a finite script of responses (one per request issued; a request
falling past the end of the script is modelled as a transport failure) and by
`handleOk`, which tells whether a given `_handle_update` call returns normally
(`false` models an exception escaping the handler). -/
def catchUpLoop (st : SyncState) (script : List DiffResponse)
    (handleOk : UpdateObj → Bool) : LoopResult :=
  let req := (st.pts, st.date, st.qts)
  match script with
  | [] => ⟨false, st, [req], []⟩
  | resp :: rest =>
    match resp with
    | .error _ => ⟨false, st, [req], []⟩
    | .ok d =>
      match d with
      | .empty date seq => ⟨true, { st with date := date, seq := seq }, [req], []⟩
      | .full newState users chats newMsgs otherUpds =>
        -- state = d.state, then the synthesized envelope is handled
        let env := synthEnvelope newState users chats newMsgs otherUpds
        if handleOk env then
          let r := catchUpLoop newState rest handleOk
          ⟨r.ok, r.state, req :: r.requests, env :: r.handled⟩
        else ⟨false, newState, [req], [env]⟩
      | .slice inter users chats newMsgs otherUpds =>
        if inter.pts > st.pts then
          let env := synthEnvelope inter users chats newMsgs otherUpds
          if handleOk env then
            let r := catchUpLoop inter rest handleOk
            ⟨r.ok, r.state, req :: r.requests, env :: r.handled⟩
          else ⟨false, inter, [req], [env]⟩
        else
          -- non-advancing intermediate state: break before any handling
          ⟨true, st, [req], []⟩
      | .tooLong _ => ⟨true, st, [req], []⟩

/-- The session collaborator as seen by `catch_up`: the stored update state
for scope 0 (read by `get_update_state(0)`, overwritten by
`set_update_state(0, state)`) and the `catching_up` flag. -/
structure Session where
  updateState0 : Option SyncState
  catchingUp : Bool
deriving DecidableEq, Repr

/-- Result of a `catch_up` call: whether it returned normally, the session
after the call, and the request/handled logs of the loop. -/
structure CatchUpResult where
  ok : Bool
  session : Session
  requests : List (Int × Int × Int)
  handled : List UpdateObj

/-- Lines 124-165 of `updates.py`, `catch_up`.  `if not state or not
state.pts: return` guards the loop; the `try/finally` persists the final
`state` and clears `catching_up` on every exit path of the loop. -/
def catch_up (session : Session) (script : List DiffResponse)
    (handleOk : UpdateObj → Bool) : CatchUpResult :=
  match session.updateState0 with
  | none => ⟨true, session, [], []⟩
  | some st =>
    if st.pts = 0 then ⟨true, session, [], []⟩
    else
      -- self.session.catching_up = True; try: ... finally: persist and clear
      let r := catchUpLoop st script handleOk
      ⟨r.ok, ⟨some r.state, false⟩, r.requests, r.handled⟩

/-! ### Handler registry: `remove_event_handler` (lines 80-99)

A matcher instance is represented by the tag of its concrete class (a `Nat`);
`isinstance(ev, event)` is `subOf tag event` for the (arbitrary) subclass
relation `subOf` of the matcher catalog, an external collaborator.  Callbacks
are opaque ids compared with `==`.  A registration is a `(matcher, callback)`
pair as stored in `self._event_builders`. -/

/-- The `event` argument of `remove_event_handler`: absent (`None`), a
matcher instance (for which the code takes `type(event)`), or a matcher
class. -/
inductive EvArg where
  | noArg
  | inst (typeTag : Nat)
  | cls (typeTag : Nat)
deriving DecidableEq, Repr

/-- Lines 88-89: `if event and not isinstance(event, type): event =
type(event)` — the normalized class tag of the `event` argument. -/
def evArgType : EvArg → Option Nat
  | .noArg => none
  | .inst t => some t
  | .cls t => some t

/-- Line 95: `cb == callback and (not event or isinstance(ev, event))`. -/
def shouldRemove (subOf : Nat → Nat → Bool) (callback : Nat)
    (event : Option Nat) (p : Nat × Nat) : Bool :=
  p.2 == callback &&
    (match event with
     | none => true
     | some t => subOf p.1 t)

/-- Lines 80-99, `remove_event_handler`.  The Python loop walks the list from
the last index down to 0 and deletes the current entry on a match; a deletion
at index `i` only shifts the already-visited indices above `i`, so the loop
examines every original entry exactly once, from the right — a right fold.
Returns `(found, remaining registrations)`. -/
def remove_event_handler (builders : List (Nat × Nat)) (callback : Nat)
    (arg : EvArg) (subOf : Nat → Nat → Bool) : Nat × List (Nat × Nat) :=
  let event := evArgType arg
  builders.foldr
    (fun p acc =>
      if shouldRemove subOf callback event p then (acc.1 + 1, acc.2)
      else (acc.1, p :: acc.2))
    (0, [])

/-! ### Dispatcher: the registration loop of `_dispatch_update` (lines 240-261)

Updates and events are modelled as `Nat`.  A registration is a pair of the
matcher build method (`build : Nat → Option Nat`, `none` when the matcher
declines) and the callback behavior on the built event. -/

/-- Behavior of one callback invocation: return normally, raise
`events.StopPropagation`, or raise any other exception. -/
inductive CbOutcome where
  | ok
  | stopProp
  | raised
deriving DecidableEq, Repr

/-- One registration of `self._event_builders`, specialized to the dispatch
of a single update. -/
def Registration : Type := (Nat → Option Nat) × (Nat → CbOutcome)

/-- Observable log of one registration loop: `invoked` lists the indices of
the registrations whose callback was invoked, `errors` the indices logged by
`__log__.exception` (the unhandled-exception branch), `stopped` the index
whose `StopPropagation` broke the loop, if any. -/
structure DispatchLog where
  invoked : List Nat
  errors : List Nat
  stopped : Option Nat
deriving DecidableEq, Repr

/-- Lines 240-261: `for builder, callback in self._event_builders: event =
builder.build(update); if event: ...; try: await callback(event); except
StopPropagation: log-debug; break; except: log-exception (and continue)`.
`i` is the index of the first registration of `regs` in the full list (the
identity recorded in the logs). -/
def dispatchFrom (u : Nat) (i : Nat) (regs : List Registration) : DispatchLog :=
  match regs with
  | [] => ⟨[], [], none⟩
  | reg :: rest =>
    match reg.1 u with
    | none => dispatchFrom u (i + 1) rest
    | some ev =>
      match reg.2 ev with
      | .ok =>
        let r := dispatchFrom u (i + 1) rest
        ⟨i :: r.invoked, r.errors, r.stopped⟩
      | .stopProp => ⟨[i], [], some i⟩
      | .raised =>
        let r := dispatchFrom u (i + 1) rest
        ⟨i :: r.invoked, i :: r.errors, r.stopped⟩

/-- The registration loop of `_dispatch_update` over the full registration
list. -/
def dispatch_update (u : Nat) (regs : List Registration) : DispatchLog :=
  dispatchFrom u 0 regs

/-- The outcome of registration `k` on update `u`: `none` when `k` is out of
range or the matcher declines (`builder.build(update)` falsy), otherwise the
behavior of the callback on the built event. -/
def outcomeAt (regs : List Registration) (u k : Nat) : Option CbOutcome :=
  match regs[k]? with
  | some reg => (reg.1 u).map reg.2
  | none => none

/-! ### Dispatcher: the lazy resolution barrier of `_dispatch_update`
(lines 229-238)

The barrier is the one genuinely concurrent piece of the module, so it is
modelled as a transition system over the cooperative (single-threaded,
suspension-point) scheduling of asyncio tasks.  `M` dispatch tasks run the
barrier block concurrently while `N` matchers sit in
`self._events_pending_resolve` (ids `0, ..., N-1`).  A scheduler step runs
one task from its current suspension point to its next one; the atomic slices
are exactly the code regions between awaits:

* `start`: the task evaluates `if self._events_pending_resolve:` and, when
  the queue is non-empty, `if self._event_resolve_lock.locked():`; acquiring
  a free asyncio lock does not suspend, so a task that finds the lock free
  acquires it in the same slice and becomes the resolver; a task that finds
  it held suspends inside `async with lock` (state `wait`); a task that
  finds the queue empty skips the whole block (state `done`).
* `resolving i`: the resolver awaits `event.resolve(self)` for the matcher
  at index `i` of the live pending list, one suspension per iteration; when
  the iteration is exhausted, releasing the lock (`Lock.release` is
  synchronous) and `self._events_pending_resolve.clear()` run in the same
  slice before the next suspension.
* `wait`: the task is suspended in the lock acquire and can only proceed
  once the lock is free; waking, passing through the empty body, releasing,
  and running its own `clear()` happen in one slice (state `done`).

`resolved m` counts how many times `resolve` was invoked for matcher `m`,
and `clears` counts the steps on which the pending queue went from non-empty
to empty. -/

/-- Position of one dispatch task inside the barrier block. -/
inductive TaskPhase where
  | start
  | wait
  | resolving (i : Nat)
  | done
deriving DecidableEq, Repr

/-- Global state of the barrier: per-task phase, the asyncio lock, the live
`_events_pending_resolve` list, the per-matcher resolve counters and the
count of queue-clearing steps. -/
structure RSys where
  tasks : Nat → TaskPhase
  lockHeld : Bool
  pending : List Nat
  resolved : Nat → Nat
  clears : Nat

/-- Replace the phase of task `t`. -/
def setTask (s : RSys) (t : Nat) (ph : TaskPhase) : RSys :=
  { s with tasks := fun v => if v = t then ph else s.tasks v }

/-- Count one `resolve` invocation for matcher `m`. -/
def bumpResolved (f : Nat → Nat) (m : Nat) : Nat → Nat :=
  fun j => if j = m then f j + 1 else f j

/-- `self._events_pending_resolve.clear()`: empties the queue, counting the
step when the queue was non-empty. -/
def clearPending (s : RSys) : RSys :=
  { s with pending := [],
           clears := s.clears + (if s.pending.isEmpty then 0 else 1) }

/-- One scheduler step of task `t` (a no-op for `t ≥ M`, for a task
suspended on the held lock, and for a finished task). -/
def rstep (M : Nat) (s : RSys) (t : Nat) : RSys :=
  if t < M then
    match s.tasks t with
    | .start =>
      if s.pending.isEmpty then setTask s t .done
      else if s.lockHeld then setTask s t .wait
      else setTask { s with lockHeld := true } t (.resolving 0)
    | .wait =>
      if s.lockHeld then s
      else clearPending (setTask s t .done)
    | .resolving i =>
      match s.pending[i]? with
      | some m =>
        setTask { s with resolved := bumpResolved s.resolved m } t
          (.resolving (i + 1))
      | none => clearPending (setTask { s with lockHeld := false } t .done)
    | .done => s
  else s

/-- Initial barrier state: every task is about to enter the block, the lock
is free, matchers `0, ..., N-1` are pending, nothing resolved yet. -/
def rinit (N : Nat) : RSys :=
  ⟨fun _ => .start, false, List.range N, fun _ => 0, 0⟩

/-- Run a schedule (an arbitrary interleaving of task steps). -/
def rexec (M : Nat) (tr : List Nat) (s : RSys) : RSys :=
  tr.foldl (rstep M) s

/-- All `M` dispatch tasks have passed the barrier. -/
def allDone (M : Nat) (s : RSys) : Prop :=
  ∀ t, t < M → s.tasks t = .done

/-- Barrier phase 1: nobody has entered the block yet. -/
def PhaseA (N : Nat) (s : RSys) : Prop :=
  (∀ t, s.tasks t = .start) ∧ s.lockHeld = false ∧
    s.pending = List.range N ∧ (∀ j, s.resolved j = 0) ∧ s.clears = 0

/-- Barrier phase 2: exactly one resolver owns the lock and has resolved the
first `i` pending matchers; everyone else is outside or suspended. -/
def PhaseB (M N : Nat) (s : RSys) : Prop :=
  ∃ r i, r < M ∧ i ≤ N ∧ s.tasks r = .resolving i ∧
    (∀ t, t ≠ r → s.tasks t = .start ∨ s.tasks t = .wait) ∧
    s.lockHeld = true ∧ s.pending = List.range N ∧
    (∀ j, s.resolved j = if j < i then 1 else 0) ∧ s.clears = 0

/-- Barrier phase 3: the resolution pass is over — every matcher resolved
exactly once, the queue cleared exactly once, the lock free. -/
def PhaseC (N : Nat) (s : RSys) : Prop :=
  s.pending = [] ∧ s.lockHeld = false ∧
    (∀ j, s.resolved j = if j < N then 1 else 0) ∧ s.clears = 1 ∧
    (∀ t, s.tasks t = .start ∨ s.tasks t = .wait ∨ s.tasks t = .done)

/-- The inductive invariant of the barrier. -/
def RInv (M N : Nat) (s : RSys) : Prop :=
  PhaseA N s ∨ PhaseB M N s ∨ PhaseC N s

/-- Example registration list for the dispatch claims: the first callback
raises an ordinary exception, the second returns normally; both matchers
accept every update. -/
def regsRaise : List Registration :=
  [(fun _ => some 0, fun _ => .raised), (fun _ => some 0, fun _ => .ok)]

/-- Example registration list for the dispatch claims: the first callback
raises `StopPropagation`, the second would return normally; both matchers
accept every update. -/
def regsStop : List Registration :=
  [(fun _ => some 0, fun _ => .stopProp), (fun _ => some 0, fun _ => .ok)]

/-! ## Claims -/

/-- C1, counterexample: with a current cursor of `pts = 0` and an item
carrying `pts = 5` — a jump of 5, which is ≥ 2 — no gap is flagged, because
line 187 guards the comparison with the truthiness of `self._state.pts`.
The claim says a jump of 2 or more always flags a gap for every prior value
of `SyncState.pts`; the prior value 0 refutes it.  The item pts is still
unconditionally adopted. -/
theorem gap_flag_zero_pts_counterexample :
    ptsOf (.item (some 5) none none) = some 5 ∧
    (5 : Int) - (0 : Int) > 1 ∧
    (cursorStep ⟨0, 0, 0, 0⟩ (.item (some 5) none none)).1 = false ∧
    (cursorStep ⟨0, 0, 0, 0⟩ (.item (some 5) none none)).2.pts = 5 :=
  ⟨rfl, by norm_num, rfl, rfl⟩

/-- C1, amended: for every update item carrying a `pts` field, a gap is
flagged iff the current `SyncState.pts` is non-zero and the item pts exceeds
it by strictly more than 1; afterwards `SyncState.pts` is unconditionally set
to the item pts, and `date`/`seq` are likewise copied when carried. -/
theorem gap_flag_iff_nonzero_pts_jump (st : SyncState) (u : UpdateObj)
    (p : Int) (h : ptsOf u = some p) :
    ((cursorStep st u).1 = true ↔ st.pts ≠ 0 ∧ p - st.pts > 1) ∧
    (cursorStep st u).2.pts = p ∧
    (∀ d, dateOf u = some d → (cursorStep st u).2.date = d) ∧
    (∀ sq, seqOf u = some sq → (cursorStep st u).2.seq = sq) := by
  unfold cursorStep
  rw [h]
  rcases hd : dateOf u with _ | d <;> rcases hs : seqOf u with _ | sq <;>
    simp [hd, hs, Bool.and_eq_true, decide_eq_true_iff]

/-- C1, witness for the amended theorem at `st.pts = 1`, item pts `3`. -/
theorem gap_flag_iff_nonzero_pts_jump_witness :
    (((cursorStep ⟨1, 0, 0, 0⟩ (.item (some 3) none none)).1 = true ↔
        (⟨1, 0, 0, 0⟩ : SyncState).pts ≠ 0 ∧
          3 - (⟨1, 0, 0, 0⟩ : SyncState).pts > 1) ∧
      (cursorStep ⟨1, 0, 0, 0⟩ (.item (some 3) none none)).2.pts = 3 ∧
      (∀ d, dateOf (.item (some 3) none none) = some d →
        (cursorStep ⟨1, 0, 0, 0⟩ (.item (some 3) none none)).2.date = d) ∧
      (∀ sq, seqOf (.item (some 3) none none) = some sq →
        (cursorStep ⟨1, 0, 0, 0⟩ (.item (some 3) none none)).2.seq = sq)) :=
  gap_flag_iff_nonzero_pts_jump ⟨1, 0, 0, 0⟩ (.item (some 3) none none) 3 rfl

/-- C3, counterexample: a non-advancing `DifferenceSlice` (intermediate pts 5
against current pts 5) carrying users, chats and a new message terminates the
loop — but nothing is fed through `_handle_update` (the `break` on line 149
precedes the synthesis on lines 151-160), contradicting the claim that the
slice contents are synthesized and fed before terminating. -/
theorem nonadvancing_slice_counterexample :
    (catch_up ⟨some ⟨5, 0, 0, 0⟩, false⟩
        [Except.ok (.slice ⟨5, 9, 8, 7⟩ [1] [2] [3] [])]
        (fun _ => true)).handled = [] ∧
    (catch_up ⟨some ⟨5, 0, 0, 0⟩, false⟩
        [Except.ok (.slice ⟨5, 9, 8, 7⟩ [1] [2] [3] [])]
        (fun _ => true)).ok = true :=
  ⟨rfl, rfl⟩

/-- C3, amended: a `DifferenceSlice` whose intermediate pts is not strictly
greater than the current `SyncState.pts` terminates the loop with no further
difference request and with nothing synthesized or fed to the
Normalizer/Dispatcher (only advancing slices and full differences are fed);
for the scripted sequence `DifferenceSlice(pts=5)`, `DifferenceSlice(pts=5)`,
`DifferenceEmpty` starting from pts 1, exactly two difference requests are
issued. -/
theorem nonadvancing_slice_terminates (st inter : SyncState)
    (script : List DiffResponse) (handleOk : UpdateObj → Bool)
    (users chats newMsgs : List Nat) (otherUpds : List UpdateObj)
    (h : inter.pts ≤ st.pts) :
    catchUpLoop st
        (Except.ok (.slice inter users chats newMsgs otherUpds) :: script)
        handleOk
      = ⟨true, st, [(st.pts, st.date, st.qts)], []⟩ ∧
    (catch_up ⟨some ⟨1, 0, 0, 0⟩, false⟩
        [Except.ok (.slice ⟨5, 0, 0, 0⟩ [] [] [] []),
         Except.ok (.slice ⟨5, 0, 0, 0⟩ [] [] [] []),
         Except.ok (.empty 0 0)] (fun _ => true)).requests.length = 2 := by
  constructor
  · have h2 : ¬ inter.pts > st.pts := not_lt.mpr h
    simp only [catchUpLoop]
    rw [if_neg h2]
  · rfl

/-- C3, witness for the amended theorem: a non-advancing slice at pts 5. -/
theorem nonadvancing_slice_terminates_witness :
    catchUpLoop ⟨5, 0, 0, 0⟩
        [Except.ok (.slice ⟨5, 9, 8, 7⟩ [1] [2] [3] [])] (fun _ => true)
      = ⟨true, ⟨5, 0, 0, 0⟩,
          [((⟨5, 0, 0, 0⟩ : SyncState).pts, (⟨5, 0, 0, 0⟩ : SyncState).date,
            (⟨5, 0, 0, 0⟩ : SyncState).qts)], []⟩ ∧
    (catch_up ⟨some ⟨1, 0, 0, 0⟩, false⟩
        [Except.ok (.slice ⟨5, 0, 0, 0⟩ [] [] [] []),
         Except.ok (.slice ⟨5, 0, 0, 0⟩ [] [] [] []),
         Except.ok (.empty 0 0)] (fun _ => true)).requests.length = 2 :=
  nonadvancing_slice_terminates ⟨5, 0, 0, 0⟩ ⟨5, 9, 8, 7⟩ []
    (fun _ => true) [1] [2] [3] [] (by norm_num)

/-- C4: whenever the reconciliation loop is entered (stored state present
with non-zero pts), the session after `catch_up` — for every script of
responses, including transport failures and handler exceptions on any
iteration — holds the final loop state in storage and has the catching-up
flag cleared: the `finally` on lines 163-165 runs on every exit path. -/
theorem catch_up_cleanup_on_all_paths (session : Session)
    (script : List DiffResponse) (handleOk : UpdateObj → Bool)
    (st : SyncState) (h1 : session.updateState0 = some st)
    (h2 : st.pts ≠ 0) :
    (catch_up session script handleOk).session.catchingUp = false ∧
    (catch_up session script handleOk).session.updateState0
      = some (catchUpLoop st script handleOk).state := by
  unfold catch_up
  rw [h1]
  simp [h2]

/-- C4, witness: a transport failure on the first request still persists the
state and clears the flag. -/
theorem catch_up_cleanup_on_all_paths_witness :
    (catch_up ⟨some ⟨3, 0, 0, 0⟩, false⟩ [Except.error ()]
        (fun _ => true)).session.catchingUp = false ∧
    (catch_up ⟨some ⟨3, 0, 0, 0⟩, false⟩ [Except.error ()]
        (fun _ => true)).session.updateState0
      = some (catchUpLoop ⟨3, 0, 0, 0⟩ [Except.error ()]
          (fun _ => true)).state :=
  catch_up_cleanup_on_all_paths ⟨some ⟨3, 0, 0, 0⟩, false⟩ [Except.error ()]
    (fun _ => true) ⟨3, 0, 0, 0⟩ rfl (by norm_num)

/-- C5: evaluating `_handle_update` on a `types.Updates` batch envelope
(users `[7]`, chats `[9]`, one embedded new-message item).  The embedded leaf
is dispatched with the entity context `[7, 9]` built from the envelope — but
the batch container itself is dispatched as well (second log entry): the
container check on line 173 is an `if`, not an `elif`, so the container falls
through to the `else` branch on lines 181-183.  The claim (and spec §4.1)
says the container is never passed to the dispatcher. -/
theorem batch_container_dispatched :
    (handleUpdate (.updates [7] [9] 100 2 [.newMessage 1 2 1]) none
        ⟨⟨1, 0, 0, 0⟩, []⟩).dispatched
      = [(.newMessage 1 2 1, [7, 9]),
         (.updates [7] [9] 100 2 [.newMessage 1 2 1], [])] :=
  rfl

/-- C6: a `DifferenceEmpty` response copies its `date`/`seq` into the state
and terminates the loop normally with no further request (first conjunct, for
every state and remaining script); for the scripted sequence
`DifferenceSlice(pts=10)` then `DifferenceEmpty(date=T, seq=S)` from pts 1,
`catch_up` returns normally with stored date `T`, seq `S`, pts `10`, and the
catching-up flag false. -/
theorem difference_empty_copies_date_seq (st : SyncState)
    (rest : List DiffResponse) (handleOk : UpdateObj → Bool) (d s T S : Int) :
    catchUpLoop st (Except.ok (.empty d s) :: rest) handleOk
      = ⟨true, { st with date := d, seq := s },
          [(st.pts, st.date, st.qts)], []⟩ ∧
    (catch_up ⟨some ⟨1, 0, 0, 0⟩, true⟩
        [Except.ok (.slice ⟨10, 0, 7, 8⟩ [] [] [] []),
         Except.ok (.empty T S)] (fun _ => true)).session
      = ⟨some ⟨10, 0, T, S⟩, false⟩ ∧
    (catch_up ⟨some ⟨1, 0, 0, 0⟩, true⟩
        [Except.ok (.slice ⟨10, 0, 7, 8⟩ [] [] [] []),
         Except.ok (.empty T S)] (fun _ => true)).ok = true :=
  ⟨rfl, rfl, rfl⟩

/-- Unfolding lemma: `remove_event_handler` on a cons examines the head
entry last (the Python loop walks from the end), so it composes with the
result on the tail. -/
theorem remove_event_handler_cons (p : Nat × Nat) (t : List (Nat × Nat))
    (callback : Nat) (arg : EvArg) (subOf : Nat → Nat → Bool) :
    remove_event_handler (p :: t) callback arg subOf
      = (if shouldRemove subOf callback (evArgType arg) p
         then ((remove_event_handler t callback arg subOf).1 + 1,
               (remove_event_handler t callback arg subOf).2)
         else ((remove_event_handler t callback arg subOf).1,
               p :: (remove_event_handler t callback arg subOf).2)) := by
  by_cases hsr : shouldRemove subOf callback (evArgType arg) p = true
  · rw [if_pos hsr]
    show (if shouldRemove subOf callback (evArgType arg) p then _ else _ :
        Nat × List (Nat × Nat)) = _
    rw [if_pos hsr]
    rfl
  · rw [if_neg hsr]
    show (if shouldRemove subOf callback (evArgType arg) p then _ else _ :
        Nat × List (Nat × Nat)) = _
    rw [if_neg hsr]
    rfl

/-- C9: `remove_event_handler` removes exactly the registrations whose
callback equals the given callback and whose matcher is an instance of the
normalized `event` argument (all registrations of the callback when the
argument is absent), returns the number removed, and keeps the remaining
registrations — all of them, in their original relative order (the remaining
list is the order-preserving filter of the non-matching entries). -/
theorem remove_event_handler_filters (subOf : Nat → Nat → Bool)
    (builders : List (Nat × Nat)) (callback : Nat) (arg : EvArg) :
    (remove_event_handler builders callback arg subOf).1
      = (builders.filter (shouldRemove subOf callback (evArgType arg))).length
    ∧ (remove_event_handler builders callback arg subOf).2
      = builders.filter
          (fun p => ! shouldRemove subOf callback (evArgType arg) p) := by
  induction builders with
  | nil => exact ⟨rfl, rfl⟩
  | cons p t ih =>
    rcases ih with ⟨ih1, ih2⟩
    rw [remove_event_handler_cons]
    by_cases hsr : shouldRemove subOf callback (evArgType arg) p = true
    · rw [if_pos hsr]
      exact ⟨by simp [List.filter_cons, hsr, ih1],
             by simp [List.filter_cons, hsr, ih2]⟩
    · rw [if_neg hsr]
      exact ⟨by simp [List.filter_cons, hsr, ih1],
             by simp [List.filter_cons, hsr, ih2]⟩

/-- C10: when the stored sync state is absent or its pts cursor is zero,
`catch_up` returns normally with the session completely untouched — no
difference request, no catching-up flag write, no state write-back. -/
theorem catch_up_no_state_noop (session : Session)
    (script : List DiffResponse) (handleOk : UpdateObj → Bool)
    (h : session.updateState0 = none ∨
         ∃ st, session.updateState0 = some st ∧ st.pts = 0) :
    catch_up session script handleOk = ⟨true, session, [], []⟩ := by
  unfold catch_up
  rcases h with h | ⟨st, h, hpts⟩
  · rw [h]
  · rw [h]
    simp [hpts]

/-- C10, witness: a session with no stored state. -/
theorem catch_up_no_state_noop_witness :
    catch_up ⟨none, false⟩ [] (fun _ => true)
      = ⟨true, ⟨none, false⟩, [], []⟩ :=
  catch_up_no_state_noop ⟨none, false⟩ [] (fun _ => true) (Or.inl rfl)

/-- Registration outcomes over the empty registration list. -/
theorem outcomeAt_nil (u k : Nat) : outcomeAt [] u k = none := rfl

/-- Registration outcome of the head registration. -/
theorem outcomeAt_cons_zero (reg : Registration) (rest : List Registration)
    (u : Nat) : outcomeAt (reg :: rest) u 0 = (reg.1 u).map reg.2 := by
  simp [outcomeAt]

/-- Registration outcomes shift across a cons. -/
theorem outcomeAt_cons_succ (reg : Registration) (rest : List Registration)
    (u k : Nat) : outcomeAt (reg :: rest) u (k + 1) = outcomeAt rest u k := by
  simp [outcomeAt]

/-- Characterization of the invoked log: callback `k` is invoked exactly
when its matcher produced an event and no earlier matching registration
signalled `StopPropagation`. -/
theorem mem_invoked_dispatchFrom (u : Nat) (regs : List Registration) :
    ∀ i k, k ∈ (dispatchFrom u i regs).invoked ↔
      ∃ r, k = i + r ∧ (outcomeAt regs u r).isSome = true ∧
        ∀ j, j < r → outcomeAt regs u j ≠ some .stopProp := by
  induction regs with
  | nil =>
    intro i k
    constructor
    · intro hmem
      simp [dispatchFrom] at hmem
    · rintro ⟨r, _, hsome, _⟩
      rw [outcomeAt_nil] at hsome
      simp at hsome
  | cons reg rest ih =>
    intro i k
    rcases hb : reg.1 u with _ | ev
    · have hred : dispatchFrom u i (reg :: rest) = dispatchFrom u (i + 1) rest := by
        simp [dispatchFrom, hb]
      rw [hred, ih (i + 1) k]
      constructor
      · rintro ⟨r, hk, hsome, hns⟩
        refine ⟨r + 1, by omega, by rwa [outcomeAt_cons_succ], ?_⟩
        intro j hj
        cases j with
        | zero =>
          rw [outcomeAt_cons_zero, hb]
          simp
        | succ j1 =>
          rw [outcomeAt_cons_succ]
          exact hns j1 (by omega)
      · rintro ⟨r, hk, hsome, hns⟩
        cases r with
        | zero =>
          rw [outcomeAt_cons_zero, hb] at hsome
          simp at hsome
        | succ r1 =>
          refine ⟨r1, by omega, by rwa [outcomeAt_cons_succ] at hsome, ?_⟩
          intro j hj
          have h2 := hns (j + 1) (by omega)
          rwa [outcomeAt_cons_succ] at h2
    · rcases ho : reg.2 ev with _ | _ | _
      · have hred : (dispatchFrom u i (reg :: rest)).invoked
            = i :: (dispatchFrom u (i + 1) rest).invoked := by
          simp [dispatchFrom, hb, ho]
        rw [hred]
        constructor
        · intro hmem
          rcases List.mem_cons.mp hmem with hki | hmem2
          · exact ⟨0, by omega, by rw [outcomeAt_cons_zero, hb]; simp,
                   fun j hj => absurd hj (by omega)⟩
          · rcases (ih (i + 1) k).mp hmem2 with ⟨r, hk, hsome, hns⟩
            refine ⟨r + 1, by omega, by rwa [outcomeAt_cons_succ], ?_⟩
            intro j hj
            cases j with
            | zero =>
              rw [outcomeAt_cons_zero, hb]
              simp [ho]
            | succ j1 =>
              rw [outcomeAt_cons_succ]
              exact hns j1 (by omega)
        · rintro ⟨r, hk, hsome, hns⟩
          cases r with
          | zero => exact List.mem_cons.mpr (Or.inl (by omega))
          | succ r1 =>
            refine List.mem_cons.mpr (Or.inr ((ih (i + 1) k).mpr
              ⟨r1, by omega, ?_, ?_⟩))
            · rwa [outcomeAt_cons_succ] at hsome
            · intro j hj
              have h2 := hns (j + 1) (by omega)
              rwa [outcomeAt_cons_succ] at h2
      · have hred : (dispatchFrom u i (reg :: rest)).invoked = [i] := by
          simp [dispatchFrom, hb, ho]
        rw [hred]
        constructor
        · intro hmem
          have hki : k = i := by simpa using hmem
          exact ⟨0, by omega, by rw [outcomeAt_cons_zero, hb]; simp,
                 fun j hj => absurd hj (by omega)⟩
        · rintro ⟨r, hk, hsome, hns⟩
          cases r with
          | zero => simp [hk]
          | succ r1 =>
            exfalso
            have h0 := hns 0 (by omega)
            rw [outcomeAt_cons_zero, hb] at h0
            simp [ho] at h0
      · have hred : (dispatchFrom u i (reg :: rest)).invoked
            = i :: (dispatchFrom u (i + 1) rest).invoked := by
          simp [dispatchFrom, hb, ho]
        rw [hred]
        constructor
        · intro hmem
          rcases List.mem_cons.mp hmem with hki | hmem2
          · exact ⟨0, by omega, by rw [outcomeAt_cons_zero, hb]; simp,
                   fun j hj => absurd hj (by omega)⟩
          · rcases (ih (i + 1) k).mp hmem2 with ⟨r, hk, hsome, hns⟩
            refine ⟨r + 1, by omega, by rwa [outcomeAt_cons_succ], ?_⟩
            intro j hj
            cases j with
            | zero =>
              rw [outcomeAt_cons_zero, hb]
              simp [ho]
            | succ j1 =>
              rw [outcomeAt_cons_succ]
              exact hns j1 (by omega)
        · rintro ⟨r, hk, hsome, hns⟩
          cases r with
          | zero => exact List.mem_cons.mpr (Or.inl (by omega))
          | succ r1 =>
            refine List.mem_cons.mpr (Or.inr ((ih (i + 1) k).mpr
              ⟨r1, by omega, ?_, ?_⟩))
            · rwa [outcomeAt_cons_succ] at hsome
            · intro j hj
              have h2 := hns (j + 1) (by omega)
              rwa [outcomeAt_cons_succ] at h2

/-- Characterization of the exception log: callback `k` is logged as an
unhandled exception exactly when it matched and raised and no earlier
matching registration signalled `StopPropagation`. -/
theorem mem_errors_dispatchFrom (u : Nat) (regs : List Registration) :
    ∀ i k, k ∈ (dispatchFrom u i regs).errors ↔
      ∃ r, k = i + r ∧ outcomeAt regs u r = some .raised ∧
        ∀ j, j < r → outcomeAt regs u j ≠ some .stopProp := by
  induction regs with
  | nil =>
    intro i k
    constructor
    · intro hmem
      simp [dispatchFrom] at hmem
    · rintro ⟨r, _, hsome, _⟩
      rw [outcomeAt_nil] at hsome
      simp at hsome
  | cons reg rest ih =>
    intro i k
    rcases hb : reg.1 u with _ | ev
    · have hred : dispatchFrom u i (reg :: rest) = dispatchFrom u (i + 1) rest := by
        simp [dispatchFrom, hb]
      rw [hred, ih (i + 1) k]
      constructor
      · rintro ⟨r, hk, hout, hns⟩
        refine ⟨r + 1, by omega, by rwa [outcomeAt_cons_succ], ?_⟩
        intro j hj
        cases j with
        | zero =>
          rw [outcomeAt_cons_zero, hb]
          simp
        | succ j1 =>
          rw [outcomeAt_cons_succ]
          exact hns j1 (by omega)
      · rintro ⟨r, hk, hout, hns⟩
        cases r with
        | zero =>
          rw [outcomeAt_cons_zero, hb] at hout
          simp at hout
        | succ r1 =>
          refine ⟨r1, by omega, by rwa [outcomeAt_cons_succ] at hout, ?_⟩
          intro j hj
          have h2 := hns (j + 1) (by omega)
          rwa [outcomeAt_cons_succ] at h2
    · rcases ho : reg.2 ev with _ | _ | _
      · have hred : (dispatchFrom u i (reg :: rest)).errors
            = (dispatchFrom u (i + 1) rest).errors := by
          simp [dispatchFrom, hb, ho]
        rw [hred, ih (i + 1) k]
        constructor
        · rintro ⟨r, hk, hout, hns⟩
          refine ⟨r + 1, by omega, by rwa [outcomeAt_cons_succ], ?_⟩
          intro j hj
          cases j with
          | zero =>
            rw [outcomeAt_cons_zero, hb]
            simp [ho]
          | succ j1 =>
            rw [outcomeAt_cons_succ]
            exact hns j1 (by omega)
        · rintro ⟨r, hk, hout, hns⟩
          cases r with
          | zero =>
            rw [outcomeAt_cons_zero, hb] at hout
            simp [ho] at hout
          | succ r1 =>
            refine ⟨r1, by omega, by rwa [outcomeAt_cons_succ] at hout, ?_⟩
            intro j hj
            have h2 := hns (j + 1) (by omega)
            rwa [outcomeAt_cons_succ] at h2
      · have hred : (dispatchFrom u i (reg :: rest)).errors = [] := by
          simp [dispatchFrom, hb, ho]
        rw [hred]
        constructor
        · intro hmem
          simp at hmem
        · rintro ⟨r, hk, hout, hns⟩
          cases r with
          | zero =>
            rw [outcomeAt_cons_zero, hb] at hout
            simp [ho] at hout
          | succ r1 =>
            have h0 := hns 0 (by omega)
            rw [outcomeAt_cons_zero, hb] at h0
            simp [ho] at h0
      · have hred : (dispatchFrom u i (reg :: rest)).errors
            = i :: (dispatchFrom u (i + 1) rest).errors := by
          simp [dispatchFrom, hb, ho]
        rw [hred]
        constructor
        · intro hmem
          rcases List.mem_cons.mp hmem with hki | hmem2
          · refine ⟨0, by omega, ?_, fun j hj => absurd hj (by omega)⟩
            rw [outcomeAt_cons_zero, hb]
            simp [ho]
          · rcases (ih (i + 1) k).mp hmem2 with ⟨r, hk, hout, hns⟩
            refine ⟨r + 1, by omega, by rwa [outcomeAt_cons_succ], ?_⟩
            intro j hj
            cases j with
            | zero =>
              rw [outcomeAt_cons_zero, hb]
              simp [ho]
            | succ j1 =>
              rw [outcomeAt_cons_succ]
              exact hns j1 (by omega)
        · rintro ⟨r, hk, hout, hns⟩
          cases r with
          | zero => exact List.mem_cons.mpr (Or.inl (by omega))
          | succ r1 =>
            refine List.mem_cons.mpr (Or.inr ((ih (i + 1) k).mpr
              ⟨r1, by omega, ?_, ?_⟩))
            · rwa [outcomeAt_cons_succ] at hout
            · intro j hj
              have h2 := hns (j + 1) (by omega)
              rwa [outcomeAt_cons_succ] at h2

/-- Characterization of the propagation stop: the loop is broken by `k`
exactly when `k` is the first matching registration signalling
`StopPropagation`. -/
theorem stopped_dispatchFrom (u : Nat) (regs : List Registration) :
    ∀ i k, (dispatchFrom u i regs).stopped = some k ↔
      ∃ r, k = i + r ∧ outcomeAt regs u r = some .stopProp ∧
        ∀ j, j < r → outcomeAt regs u j ≠ some .stopProp := by
  induction regs with
  | nil =>
    intro i k
    constructor
    · intro hmem
      simp [dispatchFrom] at hmem
    · rintro ⟨r, _, hout, _⟩
      rw [outcomeAt_nil] at hout
      simp at hout
  | cons reg rest ih =>
    intro i k
    rcases hb : reg.1 u with _ | ev
    · have hred : dispatchFrom u i (reg :: rest) = dispatchFrom u (i + 1) rest := by
        simp [dispatchFrom, hb]
      rw [hred, ih (i + 1) k]
      constructor
      · rintro ⟨r, hk, hout, hns⟩
        refine ⟨r + 1, by omega, by rwa [outcomeAt_cons_succ], ?_⟩
        intro j hj
        cases j with
        | zero =>
          rw [outcomeAt_cons_zero, hb]
          simp
        | succ j1 =>
          rw [outcomeAt_cons_succ]
          exact hns j1 (by omega)
      · rintro ⟨r, hk, hout, hns⟩
        cases r with
        | zero =>
          rw [outcomeAt_cons_zero, hb] at hout
          simp at hout
        | succ r1 =>
          refine ⟨r1, by omega, by rwa [outcomeAt_cons_succ] at hout, ?_⟩
          intro j hj
          have h2 := hns (j + 1) (by omega)
          rwa [outcomeAt_cons_succ] at h2
    · rcases ho : reg.2 ev with _ | _ | _
      · have hred : (dispatchFrom u i (reg :: rest)).stopped
            = (dispatchFrom u (i + 1) rest).stopped := by
          simp [dispatchFrom, hb, ho]
        rw [hred, ih (i + 1) k]
        constructor
        · rintro ⟨r, hk, hout, hns⟩
          refine ⟨r + 1, by omega, by rwa [outcomeAt_cons_succ], ?_⟩
          intro j hj
          cases j with
          | zero =>
            rw [outcomeAt_cons_zero, hb]
            simp [ho]
          | succ j1 =>
            rw [outcomeAt_cons_succ]
            exact hns j1 (by omega)
        · rintro ⟨r, hk, hout, hns⟩
          cases r with
          | zero =>
            rw [outcomeAt_cons_zero, hb] at hout
            simp [ho] at hout
          | succ r1 =>
            refine ⟨r1, by omega, by rwa [outcomeAt_cons_succ] at hout, ?_⟩
            intro j hj
            have h2 := hns (j + 1) (by omega)
            rwa [outcomeAt_cons_succ] at h2
      · have hred : (dispatchFrom u i (reg :: rest)).stopped = some i := by
          simp [dispatchFrom, hb, ho]
        rw [hred]
        constructor
        · intro hmem
          have hki : k = i := by
            have := Option.some.inj hmem
            omega
          refine ⟨0, by omega, ?_, fun j hj => absurd hj (by omega)⟩
          rw [outcomeAt_cons_zero, hb]
          simp [ho]
        · rintro ⟨r, hk, hout, hns⟩
          cases r with
          | zero =>
            have : k = i := by omega
            rw [this]
          | succ r1 =>
            have h0 := hns 0 (by omega)
            rw [outcomeAt_cons_zero, hb] at h0
            simp [ho] at h0
      · have hred : (dispatchFrom u i (reg :: rest)).stopped
            = (dispatchFrom u (i + 1) rest).stopped := by
          simp [dispatchFrom, hb, ho]
        rw [hred, ih (i + 1) k]
        constructor
        · rintro ⟨r, hk, hout, hns⟩
          refine ⟨r + 1, by omega, by rwa [outcomeAt_cons_succ], ?_⟩
          intro j hj
          cases j with
          | zero =>
            rw [outcomeAt_cons_zero, hb]
            simp [ho]
          | succ j1 =>
            rw [outcomeAt_cons_succ]
            exact hns j1 (by omega)
        · rintro ⟨r, hk, hout, hns⟩
          cases r with
          | zero =>
            rw [outcomeAt_cons_zero, hb] at hout
            simp [ho] at hout
          | succ r1 =>
            refine ⟨r1, by omega, by rwa [outcomeAt_cons_succ] at hout, ?_⟩
            intro j hj
            have h2 := hns (j + 1) (by omega)
            rwa [outcomeAt_cons_succ] at h2

/-- C7: if the matching registration `i` raises an ordinary exception (and
no earlier registration stopped propagation, so that `i` is reached), then
`i` is invoked and logged with its identity in the exception log, and every
later matching registration not cut off by a propagation stop is still
invoked.  The registration loop is a total function — no callback exception
escapes the dispatch, and other dispatches are independent calls. -/
theorem callback_failure_isolated (regs : List Registration) (u i : Nat)
    (hrai : outcomeAt regs u i = some .raised)
    (hnostop : ∀ j, j < i → outcomeAt regs u j ≠ some .stopProp) :
    i ∈ (dispatch_update u regs).invoked ∧
    i ∈ (dispatch_update u regs).errors ∧
    (∀ k, i < k → (outcomeAt regs u k).isSome = true →
      (∀ j, i < j → j < k → outcomeAt regs u j ≠ some .stopProp) →
      k ∈ (dispatch_update u regs).invoked) := by
  refine ⟨?_, ?_, ?_⟩
  · rw [dispatch_update, mem_invoked_dispatchFrom]
    exact ⟨i, by omega, by simp [hrai], hnostop⟩
  · rw [dispatch_update, mem_errors_dispatchFrom]
    exact ⟨i, by omega, hrai, hnostop⟩
  · intro k hik hsome hno2
    rw [dispatch_update, mem_invoked_dispatchFrom]
    refine ⟨k, by omega, hsome, ?_⟩
    intro j hj
    rcases Nat.lt_trichotomy j i with hji | hji | hji
    · exact hnostop j hji
    · rw [hji, hrai]
      simp
    · exact hno2 j hji hj

/-- C7, witness: first callback raises, second still runs. -/
theorem callback_failure_isolated_witness :
    0 ∈ (dispatch_update 5 regsRaise).invoked ∧
    0 ∈ (dispatch_update 5 regsRaise).errors ∧
    (∀ k, 0 < k → (outcomeAt regsRaise 5 k).isSome = true →
      (∀ j, 0 < j → j < k → outcomeAt regsRaise 5 j ≠ some .stopProp) →
      k ∈ (dispatch_update 5 regsRaise).invoked) :=
  callback_failure_isolated regsRaise 5 0 rfl
    (fun j hj => absurd hj (Nat.not_lt_zero j))

/-- C8: if the matching registration `i` signals `StopPropagation` (and is
the first to do so), the loop records it as the stopping registration, `i`
itself was invoked, no later-registered callback for this update runs, and
the stop is not recorded as an error (nothing at or after `i` reaches the
exception log).  Dispatches of other updates are separate `dispatch_update`
evaluations and are untouched. -/
theorem stop_propagation_breaks_loop (regs : List Registration) (u i : Nat)
    (hstop : outcomeAt regs u i = some .stopProp)
    (hnostop : ∀ j, j < i → outcomeAt regs u j ≠ some .stopProp) :
    (dispatch_update u regs).stopped = some i ∧
    i ∈ (dispatch_update u regs).invoked ∧
    (∀ k, i < k → k ∉ (dispatch_update u regs).invoked) ∧
    (∀ k, i ≤ k → k ∉ (dispatch_update u regs).errors) := by
  refine ⟨?_, ?_, ?_, ?_⟩
  · rw [dispatch_update, stopped_dispatchFrom]
    exact ⟨i, by omega, hstop, hnostop⟩
  · rw [dispatch_update, mem_invoked_dispatchFrom]
    exact ⟨i, by omega, by simp [hstop], hnostop⟩
  · intro k hik hmem
    rw [dispatch_update, mem_invoked_dispatchFrom] at hmem
    rcases hmem with ⟨r, hk, _, hns⟩
    exact hns i (by omega) hstop
  · intro k hik hmem
    rw [dispatch_update, mem_errors_dispatchFrom] at hmem
    rcases hmem with ⟨r, hk, hout, hns⟩
    rcases Nat.lt_or_ge i r with hir | hir
    · exact hns i (by omega) hstop
    · have : r = i := by omega
      rw [this, hstop] at hout
      simp at hout

/-- C8, witness: first callback stops propagation, second never runs. -/
theorem stop_propagation_breaks_loop_witness :
    (dispatch_update 5 regsStop).stopped = some 0 ∧
    0 ∈ (dispatch_update 5 regsStop).invoked ∧
    (∀ k, 0 < k → k ∉ (dispatch_update 5 regsStop).invoked) ∧
    (∀ k, 0 ≤ k → k ∉ (dispatch_update 5 regsStop).errors) :=
  stop_propagation_breaks_loop regsStop 5 0 rfl
    (fun j hj => absurd hj (Nat.not_lt_zero j))

/-- A non-trivial pending queue is non-empty. -/
theorem range_isEmpty_false (N : Nat) (hN : 0 < N) :
    (List.range N).isEmpty = false := by
  rw [List.isEmpty_eq_false_iff_exists_mem]
  exact ⟨0, List.mem_range.mpr hN⟩

/-- Step equation for a task entering the barrier block. -/
theorem rstep_of_start (M : Nat) (s : RSys) (t : Nat) (htM : t < M)
    (hst : s.tasks t = .start) :
    rstep M s t = if s.pending.isEmpty then setTask s t .done
      else if s.lockHeld then setTask s t .wait
      else setTask { s with lockHeld := true } t (.resolving 0) := by
  simp [rstep, htM, hst]

/-- Step equation for a task suspended on the lock. -/
theorem rstep_of_wait (M : Nat) (s : RSys) (t : Nat) (htM : t < M)
    (hst : s.tasks t = .wait) :
    rstep M s t = if s.lockHeld then s
      else clearPending (setTask s t .done) := by
  simp [rstep, htM, hst]

/-- Step equation for the resolver. -/
theorem rstep_of_resolving (M : Nat) (s : RSys) (t i : Nat) (htM : t < M)
    (hst : s.tasks t = .resolving i) :
    rstep M s t = match s.pending[i]? with
      | some m => setTask { s with resolved := bumpResolved s.resolved m } t
          (.resolving (i + 1))
      | none => clearPending (setTask { s with lockHeld := false } t .done) := by
  simp [rstep, htM, hst]

/-- Step equation for a finished task. -/
theorem rstep_of_done (M : Nat) (s : RSys) (t : Nat) (htM : t < M)
    (hst : s.tasks t = .done) : rstep M s t = s := by
  simp [rstep, htM, hst]

/-- Every scheduler step preserves the barrier invariant. -/
theorem rstep_preserves_inv (M N : Nat) (hN : 0 < N) (s : RSys) (t : Nat)
    (h : RInv M N s) : RInv M N (rstep M s t) := by
  by_cases htM : t < M
  · rcases h with hA | hB | hC
    · rcases hA with ⟨hstart, hlock, hpend, hres, hcl⟩
      have hpne : s.pending.isEmpty = false := by
        rw [hpend]
        exact range_isEmpty_false N hN
      have hstep : rstep M s t
          = setTask { s with lockHeld := true } t (.resolving 0) := by
        rw [rstep_of_start M s t htM (hstart t), hpne, hlock]
        simp
      rw [hstep]
      right; left
      refine ⟨t, 0, htM, Nat.zero_le N, ?_, ?_, ?_, ?_, ?_, ?_⟩
      · simp [setTask]
      · intro v hv
        left
        simp [setTask, hv, hstart v]
      · simp [setTask]
      · simp [setTask, hpend]
      · intro j
        simp [setTask, hres j]
      · simp [setTask, hcl]
    · rcases hB with ⟨r, i, hrM, hiN, hr, hoth, hlock, hpend, hres, hcl⟩
      by_cases htr : t = r
      · subst htr
        rcases Nat.lt_or_ge i N with hiN2 | hiN2
        · have hpi : s.pending[i]? = some i := by
            rw [hpend]
            rw [List.getElem?_eq_getElem (by simpa using hiN2)]
            simp
          have hstep : rstep M s t = setTask
              { s with resolved := bumpResolved s.resolved i } t
              (.resolving (i + 1)) := by
            rw [rstep_of_resolving M s t i htM hr, hpi]
          rw [hstep]
          right; left
          refine ⟨t, i + 1, htM, by omega, ?_, ?_, ?_, ?_, ?_, ?_⟩
          · simp [setTask]
          · intro v hv
            rcases hoth v hv with h1 | h1
            · left
              simp [setTask, hv, h1]
            · right
              simp [setTask, hv, h1]
          · simp [setTask, hlock]
          · simp [setTask, hpend]
          · intro j
            simp only [setTask, bumpResolved]
            by_cases hji : j = i
            · subst hji
              rw [if_pos rfl, hres j]
              simp
            · rw [if_neg hji, hres j]
              by_cases hji2 : j < i
              · rw [if_pos hji2, if_pos (by omega)]
              · rw [if_neg hji2, if_neg (by omega)]
          · simp [setTask, hcl]
        · have hieq : i = N := Nat.le_antisymm hiN hiN2
          have hpi : s.pending[i]? = none := by
            rw [hpend, List.getElem?_eq_none]
            simpa using hiN2
          have hstep : rstep M s t
              = clearPending (setTask { s with lockHeld := false } t .done) := by
            rw [rstep_of_resolving M s t i htM hr, hpi]
          rw [hstep]
          right; right
          have hpne : s.pending.isEmpty = false := by
            rw [hpend]
            exact range_isEmpty_false N hN
          refine ⟨?_, ?_, ?_, ?_, ?_⟩
          · simp [clearPending, setTask]
          · simp [clearPending, setTask]
          · intro j
            simp only [clearPending, setTask]
            rw [hres j, hieq]
          · simp [clearPending, setTask, hpne, hcl]
          · intro v
            by_cases hvt : v = t
            · right; right
              simp [clearPending, setTask, hvt]
            · rcases hoth v hvt with h1 | h1
              · left
                simp [clearPending, setTask, hvt, h1]
              · right; left
                simp [clearPending, setTask, hvt, h1]
      · rcases hoth t htr with hst | hst
        · have hpne : s.pending.isEmpty = false := by
            rw [hpend]
            exact range_isEmpty_false N hN
          have hstep : rstep M s t = setTask s t .wait := by
            rw [rstep_of_start M s t htM hst, hpne, hlock]
            simp
          rw [hstep]
          right; left
          have hrt : r ≠ t := fun he => htr he.symm
          refine ⟨r, i, hrM, hiN, ?_, ?_, ?_, ?_, ?_, ?_⟩
          · simp [setTask, hrt, hr]
          · intro v hv
            by_cases hvt : v = t
            · right
              simp [setTask, hvt]
            · rcases hoth v hv with h1 | h1
              · left
                simp [setTask, hvt, h1]
              · right
                simp [setTask, hvt, h1]
          · simp [setTask, hlock]
          · simp [setTask, hpend]
          · intro j
            simp [setTask, hres j]
          · simp [setTask, hcl]
        · have hstep : rstep M s t = s := by
            rw [rstep_of_wait M s t htM hst, hlock]
            simp
          rw [hstep]
          exact Or.inr (Or.inl ⟨r, i, hrM, hiN, hr, hoth, hlock, hpend, hres, hcl⟩)
    · rcases hC with ⟨hpend, hlock, hres, hcl, htasks⟩
      rcases htasks t with hst | hst | hst
      · have hpe : s.pending.isEmpty = true := by
          rw [hpend]
          rfl
        have hstep : rstep M s t = setTask s t .done := by
          rw [rstep_of_start M s t htM hst, hpe]
          simp
        rw [hstep]
        right; right
        refine ⟨by simp [setTask, hpend], by simp [setTask, hlock], ?_,
          by simp [setTask, hcl], ?_⟩
        · intro j
          simp [setTask, hres j]
        · intro v
          by_cases hvt : v = t
          · right; right
            simp [setTask, hvt]
          · rcases htasks v with h1 | h1 | h1
            · left
              simp [setTask, hvt, h1]
            · right; left
              simp [setTask, hvt, h1]
            · right; right
              simp [setTask, hvt, h1]
      · have hstep : rstep M s t = clearPending (setTask s t .done) := by
          rw [rstep_of_wait M s t htM hst, hlock]
          simp
        rw [hstep]
        right; right
        refine ⟨by simp [clearPending, setTask],
          by simp [clearPending, setTask, hlock], ?_, ?_, ?_⟩
        · intro j
          simp [clearPending, setTask, hres j]
        · simp [clearPending, setTask, hpend, hcl]
        · intro v
          by_cases hvt : v = t
          · right; right
            simp [clearPending, setTask, hvt]
          · rcases htasks v with h1 | h1 | h1
            · left
              simp [clearPending, setTask, hvt, h1]
            · right; left
              simp [clearPending, setTask, hvt, h1]
            · right; right
              simp [clearPending, setTask, hvt, h1]
      · rw [rstep_of_done M s t htM hst]
        exact Or.inr (Or.inr ⟨hpend, hlock, hres, hcl, htasks⟩)
  · have hstep : rstep M s t = s := by
      simp [rstep, htM]
    rw [hstep]
    exact h

/-- Every schedule preserves the barrier invariant. -/
theorem rexec_preserves_inv (M N : Nat) (hN : 0 < N) (tr : List Nat)
    (s : RSys) (h : RInv M N s) : RInv M N (rexec M tr s) := by
  induction tr generalizing s with
  | nil => exact h
  | cons t tr ih => exact ih (rstep M s t) (rstep_preserves_inv M N hN s t h)

/-- The initial barrier state satisfies the invariant. -/
theorem rinit_inv (M N : Nat) : RInv M N (rinit N) :=
  Or.inl ⟨fun _ => rfl, rfl, rfl, fun _ => rfl, rfl⟩

/-- C2: for every number `M > 1` of concurrently arriving dispatches with
`N > 0` matchers pending resolution and every interleaving (schedule) of
their suspension-point slices that runs all dispatches to completion, each
pending matcher's resolve step has executed exactly once and the pending
queue went from non-empty to empty exactly once.  Blocking is part of the
step semantics: a dispatch that found the lock held takes no step while the
resolver holds it, and proceeds without re-resolving afterwards (its resolve
count contribution is zero, as the conclusion shows). -/
theorem pending_resolution_single_flight (M N : Nat) (tr : List Nat)
    (hM : 1 < M) (hN : 0 < N)
    (hdone : allDone M (rexec M tr (rinit N))) :
    (∀ j, j < N → (rexec M tr (rinit N)).resolved j = 1) ∧
    (rexec M tr (rinit N)).clears = 1 := by
  rcases rexec_preserves_inv M N hN tr (rinit N) (rinit_inv M N) with hA | hB | hC
  · exfalso
    have h0 := hdone 0 (by omega)
    rw [hA.1 0] at h0
    exact TaskPhase.noConfusion h0
  · exfalso
    rcases hB with ⟨r, i, hrM, _, hr, _⟩
    have h0 := hdone r hrM
    rw [hr] at h0
    exact TaskPhase.noConfusion h0
  · rcases hC with ⟨_, _, hres, hcl, _⟩
    exact ⟨fun j hj => by rw [hres j, if_pos hj], hcl⟩

/-- C2, witness: two dispatches, one pending matcher, a schedule where task
0 resolves and task 1 arrives afterwards. -/
theorem pending_resolution_single_flight_witness :
    (∀ j, j < 1 → (rexec 2 [0, 0, 0, 1] (rinit 1)).resolved j = 1) ∧
    (rexec 2 [0, 0, 0, 1] (rinit 1)).clears = 1 :=
  pending_resolution_single_flight 2 1 [0, 0, 0, 1] (by omega) (by omega)
    (by intro t ht; interval_cases t <;> rfl)

end Telethon

